import Mathlib

/-!
Verification of the docusense ingestion-and-retrieval pipeline
(backend/app: core/chunking.py, core/retrieval.py, core/embeddings.py,
api/ingest.py, api/query.py) against its natural-language specification.

The Python source is shallowly embedded below: pure functions become Lean
functions, the tokenizer and the embedding model are abstract function
parameters, floats are modelled by `ℚ`, SQLAlchemy sessions by explicit
record states with a committed part and a pending part, and external
failures (parser, storage) by `Except` values and an injectable
commit-failure oracle.
-/

namespace Docusense

/-! ### Python string primitives used by the chunker -/

/-- Python `str.strip()` with no argument: remove leading and trailing
whitespace. -/
def pyStrip (s : String) : String :=
  String.mk (((s.data.dropWhile Char.isWhitespace).reverse.dropWhile
    Char.isWhitespace).reverse)

/-- Worker for `re.split(r'\n\n+', text)`: split at each maximal run of two
or more newline characters (the regex consumes the whole greedy run).
`cur` is the reversed current field, `nl` counts the newlines read
immediately before the current position and not yet committed: a run of
two or more splits, a single one is ordinary text. -/
def splitParasAux : List Char → ℕ → List Char → List (List Char)
  | cur, nl, [] =>
      if 2 ≤ nl then [cur.reverse, []]
      else [(List.replicate nl '\n' ++ cur).reverse]
  | cur, nl, c :: rest =>
      if c = '\n' then splitParasAux cur (nl + 1) rest
      else if 2 ≤ nl then cur.reverse :: splitParasAux [c] 0 rest
      else splitParasAux (c :: (List.replicate nl '\n' ++ cur)) 0 rest

/-- `re.split(r'\n\n+', text)` from `chunk_text`. -/
def splitParas (s : String) : List String :=
  (splitParasAux [] 0 s.data).map String.mk

/-- End-of-sentence punctuation of the chunker's sentence regex. -/
def isSentPunct (c : Char) : Bool := c = '.' ∨ c = '!' ∨ c = '?'

/-- Worker for `re.split(r'(?<=[.!?])\s+', para)`: split at each maximal
whitespace run whose preceding character is `.`, `!` or `?`; the run
itself is consumed. `prevPunct` records whether the previous character
satisfies the lookbehind; `matching` is true while consuming a splitting
whitespace run. -/
def splitSentencesAux : Bool → Bool → List Char → List Char → List (List Char)
  | _, matching, cur, [] =>
      if matching then [cur.reverse, []] else [cur.reverse]
  | prevPunct, matching, cur, c :: rest =>
      if matching then
        if c.isWhitespace then splitSentencesAux false true cur rest
        else cur.reverse :: splitSentencesAux (isSentPunct c) false [c] rest
      else
        if prevPunct ∧ c.isWhitespace then splitSentencesAux false true cur rest
        else splitSentencesAux (isSentPunct c) false (c :: cur) rest

/-- `re.split(r'(?<=[.!?])\s+', para)` from `chunk_text`. -/
def splitSentences (s : String) : List String :=
  (splitSentencesAux false false [] s.data).map String.mk

/-! ### Chunker data model (core/chunking.py) -/

/-- The `meta_data` dictionary attached to a chunk by `chunk_text` /
`chunk_markdown`. The source only ever writes these three keys. -/
structure ChunkMeta where
  chunk_method : String
  has_overlap : Bool
  header : Option String := none
deriving DecidableEq, Repr

/-- One chunk dictionary as produced by `chunk_text`. -/
structure ChunkData where
  text : String
  chunk_index : ℕ
  token_count : ℕ
  start_char : ℕ
  meta_data : ChunkMeta
deriving DecidableEq, Repr

/-- Configuration of `DocumentChunker.__init__`; the tiktoken tokenizer is
passed separately as an abstract `String → ℕ` token counter. -/
structure DocumentChunker where
  chunk_size : ℕ
  chunk_overlap : ℕ
deriving DecidableEq, Repr

/-- Loop state of `chunk_text`: `chunks`, `current_chunk`,
`current_tokens`, `chunk_index`. -/
structure ChunkerState where
  chunks : List ChunkData
  current_chunk : List String
  current_tokens : ℕ
  chunk_index : ℕ
deriving DecidableEq, Repr

/-- `len(' '.join([c['text'] for c in chunks]))` — the source's
`start_char` formula over the chunks emitted so far. -/
def prevJoinLen (chunks : List ChunkData) : ℕ :=
  (String.intercalate " " (chunks.map (fun c => c.text))).length

/-- Python `lst[-2:]`. -/
def pyLastTwo (l : List α) : List α := l.drop (l.length - 2)

/-- Python `lst[-1] if len(lst) > 0 else ""`. -/
def pyLastD (l : List String) : String := l.getLast?.getD ""

/-- Build the chunk dictionary appended by `chunk_text` (common to the
`sentence_split`, `paragraph_split` and `final_chunk` sites). -/
def saveChunk (method : String) (st : ChunkerState) : ChunkData :=
  { text := String.intercalate " " st.current_chunk
    chunk_index := st.chunk_index
    token_count := st.current_tokens
    start_char := prevJoinLen st.chunks
    meta_data := { chunk_method := method, has_overlap := decide (st.chunk_index > 0) } }

/-- Body of the `for sentence in sentences` loop of `chunk_text` (the
oversized-paragraph branch). Note the `if current_chunk:` guard: when the
current chunk is empty and the sentence alone exceeds `chunk_size`,
nothing at all happens and the sentence is silently discarded. -/
def stepSentence (C : DocumentChunker) (tok : String → ℕ)
    (st : ChunkerState) (sentence : String) : ChunkerState :=
  let sentence_tokens := tok sentence
  if st.current_tokens + sentence_tokens > C.chunk_size then
    if st.current_chunk ≠ [] then
      let chunks' := st.chunks ++ [saveChunk "sentence_split" st]
      let st' : ChunkerState :=
        { chunks := chunks', current_chunk := st.current_chunk,
          current_tokens := st.current_tokens, chunk_index := st.chunk_index + 1 }
      if C.chunk_overlap > 0 ∧ st.current_chunk.length > 1 then
        let ov := pyLastTwo st.current_chunk
        { st' with current_chunk := ov ++ [sentence],
                   current_tokens := tok (String.intercalate " " ov) + sentence_tokens }
      else
        { st' with current_chunk := [sentence], current_tokens := sentence_tokens }
    else st
  else
    { st with current_chunk := st.current_chunk ++ [sentence],
              current_tokens := st.current_tokens + sentence_tokens }

/-- Body of the `for para in paragraphs` loop of `chunk_text`. -/
def stepParagraph (C : DocumentChunker) (tok : String → ℕ)
    (st : ChunkerState) (para0 : String) : ChunkerState :=
  let para := pyStrip para0
  if para = "" then st
  else
    let para_tokens := tok para
    if para_tokens > C.chunk_size then
      (splitSentences para).foldl (stepSentence C tok) st
    else
      if st.current_tokens + para_tokens > C.chunk_size then
        if st.current_chunk ≠ [] then
          let chunks' := st.chunks ++ [saveChunk "paragraph_split" st]
          let idx' := st.chunk_index + 1
          if C.chunk_overlap > 0 ∧ st.current_chunk ≠ [] then
            let overlap_text := pyLastD st.current_chunk
            if overlap_text ≠ "" then
              { chunks := chunks', current_chunk := [overlap_text, para],
                current_tokens := tok overlap_text + para_tokens, chunk_index := idx' }
            else
              { chunks := chunks', current_chunk := [para],
                current_tokens := 0 + para_tokens, chunk_index := idx' }
          else
            { chunks := chunks', current_chunk := [para],
              current_tokens := para_tokens, chunk_index := idx' }
        else st
      else
        { st with current_chunk := st.current_chunk ++ [para],
                  current_tokens := st.current_tokens + para_tokens }

/-- `DocumentChunker.chunk_text` (core/chunking.py lines 22-128). -/
def chunk_text (C : DocumentChunker) (tok : String → ℕ) (input : String) :
    List ChunkData :=
  let t := pyStrip input
  if t = "" then []
  else
    let st := (splitParas t).foldl (stepParagraph C tok) ⟨[], [], 0, 0⟩
    if st.current_chunk ≠ [] then st.chunks ++ [saveChunk "final_chunk" st]
    else st.chunks

/-- `re.match(r'^(#{1,6})\s+(.+)$', line)` returning `group(2)`, the section
title. Greedy `\s+` with backtracking: when everything after the hashes is
whitespace of length at least two, `(.+)` captures the final whitespace
character. `\s` is modelled by `Char.isWhitespace` (lines contain no
newline, having come from a `split('\n')`). -/
def matchHeader (line : String) : Option String :=
  let cs := line.data
  let hashes := cs.takeWhile (fun c => c = '#')
  let rest := cs.drop hashes.length
  if 1 ≤ hashes.length ∧ hashes.length ≤ 6 then
    let ws := rest.takeWhile Char.isWhitespace
    let after := rest.drop ws.length
    if ws.length = 0 then none
    else if after ≠ [] then some (String.mk after)
    else if 2 ≤ ws.length then some (String.mk (ws.drop (ws.length - 1)))
    else none
  else none

/-- Loop state of `chunk_markdown`: accumulated chunks, the current
section's lines, and the current header title. -/
structure MdState where
  chunks : List ChunkData
  current_section : List String
  current_header : Option String
deriving Repr

/-- Flush the current section: chunk it with `chunk_text` and stamp every
resulting chunk's metadata with the current header. -/
def flushSection (C : DocumentChunker) (tok : String → ℕ) (st : MdState) :
    List ChunkData :=
  if st.current_section ≠ [] then
    st.chunks ++
      ((chunk_text C tok (String.intercalate "\n" st.current_section)).map
        (fun c => { c with meta_data := { c.meta_data with header := st.current_header } }))
  else st.chunks

/-- Body of the `for line in lines` loop of `chunk_markdown`. -/
def mdStep (C : DocumentChunker) (tok : String → ℕ) (st : MdState)
    (line : String) : MdState :=
  match matchHeader line with
  | some h =>
      { chunks := flushSection C tok st, current_section := [line],
        current_header := some h }
  | none => { st with current_section := st.current_section ++ [line] }

/-- `DocumentChunker.chunk_markdown` (core/chunking.py lines 130-169),
including the final 0-based reindexing pass. -/
def chunk_markdown (C : DocumentChunker) (tok : String → ℕ) (input : String) :
    List ChunkData :=
  let lines := input.splitOn "\n"
  let st := lines.foldl (mdStep C tok) ⟨[], [], none⟩
  let all := flushSection C tok st
  all.enum.map (fun p => { p.2 with chunk_index := p.1 })

/-! ### Hybrid retrieval (core/retrieval.py)

Scores are floats in the source, modelled by `ℚ`. The vector search and the
BM25 search run against external systems (pgvector, rank_bm25), so
`hybrid_search` is embedded as a function of their result lists `V` and `K`
(`(chunk_id, score)` pairs, already ordered), exactly as the fusion code
consumes them. -/

instance decRelSndGe : DecidableRel (fun a b : ℤ × ℚ => b.2 ≤ a.2) :=
  fun a b => inferInstanceAs (Decidable (b.2 ≤ a.2))

instance decRelSndLe : DecidableRel (fun a b : ℕ × ℚ => a.2 ≤ b.2) :=
  fun a b => inferInstanceAs (Decidable (a.2 ≤ b.2))

/-- Python dict assignment `scores[chunk_id] = scores.get(chunk_id, 0) + v`:
an existing key keeps its position, a new key is appended (insertion
order). -/
def dictAdd : List (ℤ × ℚ) → ℤ → ℚ → List (ℤ × ℚ)
  | [], k, v => [(k, v)]
  | (a, b) :: rest, k, v =>
      if a = k then (a, b + v) :: rest else (a, b) :: dictAdd rest k v

/-- The reciprocal-rank-fusion score dictionary of `hybrid_search`
(retrieval.py lines 112-127), with `k = 60`: the vector loop adds
`vector_weight / (k + rank + 1)` for every vector result, then the keyword
loop adds `(1 - vector_weight) / (k + rank + 1)` only when the chunk id
also occurs in the vector result list. -/
def rrf_scores (vector_weight : ℚ) (V K : List (ℤ × ℚ)) : List (ℤ × ℚ) :=
  let d0 := V.enum.foldl
    (fun d p => dictAdd d p.2.1 (vector_weight / (60 + (p.1 : ℚ) + 1))) []
  K.enum.foldl
    (fun d p =>
      if p.2.1 ∈ V.map Prod.fst then
        dictAdd d p.2.1 ((1 - vector_weight) / (60 + (p.1 : ℚ) + 1))
      else d)
    d0

/-- Python `sorted(items, key=lambda x: x[1], reverse=True)`: a stable sort
by descending second component. CPython's sort is stable; Mathlib's
insertion sort with this relation places each earlier element before later
elements of equal key, which is exactly stability. -/
def pySortDescBySnd (l : List (ℤ × ℚ)) : List (ℤ × ℚ) :=
  l.insertionSort (fun a b => b.2 ≤ a.2)

/-- `HybridRetriever.hybrid_search` (retrieval.py lines 94-150) from the
fusion step onwards: fuse `V` and `K` with RRF, sort by descending fused
score (Python's stable sort), truncate to `top_k`, then hydrate the rows
from the database. `store` says which chunk ids the `db.query(...in_(...))`
hydration finds; the result keeps the fused order as `(chunk_id, score)`
pairs. -/
def hybrid_search (store : ℤ → Bool) (V K : List (ℤ × ℚ))
    (vector_weight : ℚ) (top_k : ℕ) : List (ℤ × ℚ) :=
  let sorted_chunks := (pySortDescBySnd (rrf_scores vector_weight V K)).take top_k
  sorted_chunks.filter (fun p => store p.1)

/-! ### Keyword search (core/retrieval.py lines 69-92)

`keyword_search` runs BM25 over the index built by `build_bm25_index`; the
BM25 scores themselves come from the external rank_bm25 library, so the
embedding takes the per-position score array and the positional
`chunk_ids` list as inputs and models the selection logic:
`np.argsort(scores)[-top_k:][::-1]` followed by the positive-score filter.
`np.argsort` with its default `kind='quicksort'` is documented by numpy as
NOT stable: the only guarantee is an ascending-by-score permutation of the
positions, captured below by `np_argsort_spec`; the order of equal scores
is an implementation detail. The function `argsortAsc` is one admissible
resolution — the plain insertion sort that numpy's introsort actually runs
on arrays below its small-sort threshold (such as the two-element array of
the tie counterexample). The Python slice `a[-top_k:]` is the whole array
when `top_k = 0`. -/

/-- What `np.argsort` guarantees of its output for every sort kind: a
permutation of the `(position, score)` pairs, ascending by score. Ties may
come back in any order (the default quicksort is not stable). -/
def np_argsort_spec (l ord : List (ℕ × ℚ)) : Prop :=
  ord.Perm l ∧ ord.Pairwise (fun a b => a.2 ≤ b.2)

/-- One admissible `np.argsort` outcome: ascending insertion sort of the
`(position, score)` pairs by score. This is numpy's actual behavior on its
small-array insertion-sort path (used for the concrete two-element
counterexample input); for larger arrays the default quicksort guarantees
only `np_argsort_spec`. -/
def argsortAsc (l : List (ℕ × ℚ)) : List (ℕ × ℚ) :=
  l.insertionSort (fun a b => a.2 ≤ b.2)

/-- The deterministic tail of `keyword_search` after the `np.argsort`
call: slice `[-top_k:][::-1]`, drop non-positive scores, map positions to
chunk ids. -/
def keyword_search_post (chunk_ids : List ℤ) (top_k : ℕ)
    (ord : List (ℕ × ℚ)) : List (ℤ × ℚ) :=
  let sel := if top_k = 0 then ord.reverse else ord.reverse.take top_k
  (sel.filter (fun p => 0 < p.2)).map (fun p => (chunk_ids.getD p.1 0, p.2))

/-- `HybridRetriever.keyword_search` given the indexed `chunk_ids` and the
BM25 `scores` array (one score per index position), with the argsort
resolved by `argsortAsc` (the small-array path). -/
def keyword_search (chunk_ids : List ℤ) (scores : List ℚ) (top_k : ℕ) :
    List (ℤ × ℚ) :=
  let ord := argsortAsc scores.enum
  let sel := if top_k = 0 then ord.reverse else ord.reverse.take top_k
  (sel.filter (fun p => 0 < p.2)).map (fun p => (chunk_ids.getD p.1 0, p.2))

/-- `keyword_search` is `keyword_search_post` applied to the insertion-sort
argsort outcome. -/
theorem keyword_search_eq_post (chunk_ids : List ℤ) (scores : List ℚ)
    (top_k : ℕ) :
    keyword_search chunk_ids scores top_k
      = keyword_search_post chunk_ids top_k (argsortAsc scores.enum) := rfl

/-- `argsortAsc` satisfies the numpy argsort contract. -/
theorem argsortAsc_satisfies_spec (l : List (ℕ × ℚ)) :
    np_argsort_spec l (argsortAsc l) := by
  constructor
  · exact List.perm_insertionSort _ _
  · haveI : IsTotal (ℕ × ℚ) (fun a b => a.2 ≤ b.2) :=
      ⟨fun a b => le_total a.2 b.2⟩
    haveI : IsTrans (ℕ × ℚ) (fun a b => a.2 ≤ b.2) :=
      ⟨fun _ _ _ h g => le_trans h g⟩
    exact List.sorted_insertionSort _ _

/-- The spec's `search(query, top_k)` as the claim words it: the top-k
entries by BM25 score with ties broken by ascending chunk id, zero-score
entries excluded. -/
def keyword_search_spec (chunk_ids : List ℤ) (scores : List ℚ) (top_k : ℕ) :
    List (ℤ × ℚ) :=
  let sorted := (chunk_ids.zip scores).insertionSort
    (fun a b => b.2 < a.2 ∨ (b.2 = a.2 ∧ a.1 ≤ b.1))
  (sorted.take top_k).filter (fun p => p.2 ≠ 0)

instance decRelSpecLex :
    DecidableRel (fun a b : ℤ × ℚ => b.2 < a.2 ∨ (b.2 = a.2 ∧ a.1 ≤ b.1)) :=
  fun a b => inferInstanceAs (Decidable (b.2 < a.2 ∨ (b.2 = a.2 ∧ a.1 ≤ b.1)))

/-! ### Embedding batcher (core/embeddings.py lines 51-62) -/

/-- Worker for the Python batching loop: `k` is the remaining capacity of
the current batch (batch size is `b + 1`), `acc` the reversed current
batch. -/
def chunkListGo (b : ℕ) : ℕ → List α → List α → List (List α)
  | _, acc, [] => [acc.reverse]
  | 0, acc, x :: xs => acc.reverse :: chunkListGo b b [x] xs
  | k + 1, acc, x :: xs => chunkListGo b k (x :: acc) xs

/-- Python `texts[i:i+batch_size]` slices for `i in range(0, len(texts),
batch_size)` with step `b + 1`. -/
def chunkList (b : ℕ) : List α → List (List α)
  | [] => []
  | x :: xs => chunkListGo b b [x] xs

/-- `EmbeddingService.embed_batch`: the texts are encoded in batches
(`embed_text` is modelled by the per-text vector function `f`) and stacked
with `np.vstack`, which raises `ValueError: need at least one array to
concatenate` on an empty list; `range` with step 0 also raises. -/
def embed_batch (f : String → List ℚ) (batch_size : ℕ)
    (texts : List String) : Except String (List (List ℚ)) :=
  match batch_size with
  | 0 => .error "range() arg 3 must not be zero"
  | b + 1 =>
    let all_embeddings := chunkList b texts
    if all_embeddings = [] then .error "need at least one array to concatenate"
    else .ok ((all_embeddings.map (fun ts => ts.map f)).flatten)

/-! ### Ingestion pipeline (api/ingest.py) -/

/-- The mutable columns of an `IngestJob` row touched by
`process_document`. -/
structure IngestJobRow where
  status : String
  progress : ℕ
  error_message : Option String
deriving DecidableEq, Repr

/-- A persisted `Chunk` row (models/database.py), as built by the store
loop of `process_document`. -/
structure ChunkRow where
  document_id : ℕ
  text : String
  token_count : ℕ
  chunk_index : ℕ
  start_char : ℕ
  end_char : ℕ
  embedding : List ℚ
  meta_data : ChunkMeta
deriving DecidableEq, Repr

/-- The SQLAlchemy session state seen by `process_document`: the job row,
the committed chunk rows of the store, and the session-pending (added but
uncommitted) chunk rows. -/
structure PipeDb where
  job : IngestJobRow
  chunks : List ChunkRow
  pending : List ChunkRow
deriving DecidableEq, Repr

/-- `db.commit()`: flush pending inserts into the store. -/
def commitDb (db : PipeDb) : PipeDb :=
  { db with chunks := db.chunks ++ db.pending, pending := [] }

/-- A numbered `db.commit()` that the storage layer may fail (`cf n`
injects a transient storage error at commit `n`); a failing commit raises
before applying anything. -/
def runCommit (cf : ℕ → Bool) (n : ℕ) (db : PipeDb) :
    Except (String × PipeDb) PipeDb :=
  if cf n then .error ("StorageError", db) else .ok (commitDb db)

/-- The `except` handler of `process_document` (ingest.py lines 95-100):
mark the job failed, record the message, and commit — with no removal of
any chunk rows already inserted for the document. -/
def failJob (msg : String) (db : PipeDb) : PipeDb :=
  commitDb { db with job := { db.job with status := "failed", error_message := some msg } }

/-- Lift an external call's outcome into the pipeline, remembering the
session state at the point of failure. -/
def liftErr (db : PipeDb) : Except String α → Except (String × PipeDb) α
  | .ok a => .ok a
  | .error e => .error (e, db)

/-- `process_document` (api/ingest.py lines 34-102). The parser call is
modelled by its outcome `parse` (network/file IO), the tokenizer by `tok`,
the embedding model by `f`, and storage faults by the commit oracle `cf`.
Every exception lands in the `failJob` handler, exactly as the source's
single `try/except` does. -/
def process_document (cf : ℕ → Bool) (parse : Except String String)
    (C : DocumentChunker) (tok : String → ℕ) (f : String → List ℚ)
    (document_id : ℕ) (db0 : PipeDb) : PipeDb :=
  let r : Except (String × PipeDb) PipeDb := do
    let db := { db0 with job := { db0.job with status := "processing", progress := 10 } }
    let db ← runCommit cf 1 db
    let text ← liftErr db parse
    let db := { db with job := { db.job with progress := 30 } }
    let db ← runCommit cf 2 db
    let chunks_data := chunk_text C tok text
    let db := { db with job := { db.job with progress := 50 } }
    let db ← runCommit cf 3 db
    let texts := chunks_data.map (fun c => c.text)
    let embeddings ← liftErr db (embed_batch f 32 texts)
    let db := { db with job := { db.job with progress := 80 } }
    let db ← runCommit cf 4 db
    let rows := (chunks_data.zip embeddings).map (fun p =>
      { document_id := document_id, text := p.1.text,
        token_count := p.1.token_count, chunk_index := p.1.chunk_index,
        start_char := p.1.start_char, end_char := p.1.text.length,
        embedding := p.2, meta_data := p.1.meta_data : ChunkRow })
    let db := { db with pending := db.pending ++ rows }
    let db ← runCommit cf 5 db
    let db := { db with job := { db.job with status := "completed", progress := 100 } }
    runCommit cf 6 db
  match r with
  | .ok db => db
  | .error (e, db) => failJob e db

/-- A `Document` row (models/database.py); `checksum` is nullable and the
URL path never sets it. -/
structure DocRow where
  id : ℕ
  collection_id : ℕ
  title : String
  source_type : String
  source_url : Option String
  checksum : Option String
deriving DecidableEq, Repr

/-- An `IngestJob` row as created by the API endpoints. -/
structure ApiJobRow where
  id : String
  collection_id : ℕ
  document_id : ℕ
  status : String
  progress : ℕ
deriving DecidableEq, Repr

/-- The body of `POST /api/ingest/url` (IngestRequest). -/
structure IngestRequest where
  collection_id : ℕ
  url : Option String
  text : Option String := none
  title : String
deriving DecidableEq, Repr

/-- `ingest_url` (api/ingest.py lines 182-232): validate, then create the
`Document` row immediately — with no checksum computed and no duplicate
lookup — create the pending job, and schedule `process_document`. Returns
the updated document table, job table and the new document id. -/
def ingest_url (collections : List ℕ) (job_id : String) (req : IngestRequest)
    (docs : List DocRow) (jobs : List ApiJobRow) :
    Except String (List DocRow × List ApiJobRow × ℕ) :=
  if req.url = none then .error "URL is required"
  else if req.collection_id ∉ collections then .error "Collection not found"
  else
    let document_id := docs.length + 1
    let doc : DocRow :=
      { id := document_id, collection_id := req.collection_id,
        title := req.title, source_type := "url", source_url := req.url,
        checksum := none }
    let job : ApiJobRow :=
      { id := job_id, collection_id := req.collection_id,
        document_id := document_id, status := "pending", progress := 0 }
    .ok (docs ++ [doc], jobs ++ [job], document_id)

/-! ### Query endpoint (api/query.py lines 84-134) -/

/-- The dictionary returned by `llm_service.generate_answer`. -/
structure AnswerData where
  answer : String
  citations : List ℕ
  latency_ms : ℕ
  model : String
deriving DecidableEq, Repr

/-- A `Query` row (models/database.py). -/
structure QueryRow where
  collection_id : ℕ
  question : String
  answer : String
  citations : List ℕ
  latency_ms : ℕ
  llm_model : String
  retrieval_score : ℚ
deriving DecidableEq, Repr

/-- A `QueryChunk` row. -/
structure QueryChunkRow where
  query_id : ℕ
  chunk_id : ℤ
  rank : ℕ
  score : ℚ
deriving DecidableEq, Repr

/-- The body of the `QueryResponse` (latency is wall-clock and not
modelled). -/
structure AskResponse where
  answer : String
  citations : List ℕ
  confidence : ℚ
deriving DecidableEq, Repr

/-- `ask_question` (api/query.py) from the answerability check onwards:
when `confidence < 0.05` the handler returns the fixed insufficient-
information response immediately — writing nothing — otherwise it calls
the LLM (outcome `a`), stores a `Query` row plus one `QueryChunk` row per
used chunk, and returns the generated answer. `results` carries the
retrieved `(chunk_id, score)` pairs. -/
def ask_question (collection_id : ℕ) (question : String) (confidence : ℚ)
    (a : AnswerData) (results : List (ℤ × ℚ)) (queries : List QueryRow)
    (qchunks : List QueryChunkRow) :
    AskResponse × List QueryRow × List QueryChunkRow :=
  if confidence < 1/20 then
    (⟨"I cannot find enough relevant information to answer this question.",
      [], confidence⟩, queries, qchunks)
  else
    let row : QueryRow :=
      { collection_id := collection_id, question := question,
        answer := a.answer, citations := a.citations,
        latency_ms := a.latency_ms, llm_model := a.model,
        retrieval_score := confidence }
    let query_id := queries.length + 1
    let used := (results.take 5).enum.map (fun p =>
      { query_id := query_id, chunk_id := p.2.1, rank := p.1 + 1,
        score := p.2.2 : QueryChunkRow })
    (⟨a.answer, a.citations, confidence⟩, queries ++ [row], qchunks ++ used)

/-! ### Chunk-index density (claim C6) -/

/-- Loop invariant of `chunk_text`: `chunk_index` always equals the number
of chunks emitted so far, and the emitted chunks carry exactly the indices
`0, …, n-1` in order. -/
def IdxInv (st : ChunkerState) : Prop :=
  st.chunk_index = st.chunks.length ∧
  st.chunks.map (fun c => c.chunk_index) = List.range st.chunks.length

theorem idxInv_append {st : ChunkerState} (h : IdxInv st) (m : String) :
    (st.chunks ++ [saveChunk m st]).map (fun c => c.chunk_index) =
      List.range (st.chunks ++ [saveChunk m st]).length := by
  obtain ⟨h1, h2⟩ := h
  rw [List.map_append, h2]
  simp [saveChunk, h1, List.range_succ]

theorem foldl_preserve {σ α : Type _} {f : σ → α → σ} {P : σ → Prop}
    (hf : ∀ s a, P s → P (f s a)) : ∀ (l : List α) (s : σ), P s → P (l.foldl f s)
  | [], _, hs => hs
  | a :: l, s, hs => foldl_preserve hf l (f s a) (hf s a hs)

theorem idxInv_stepSentence (C : DocumentChunker) (tok : String → ℕ)
    {st : ChunkerState} (s : String) (h : IdxInv st) :
    IdxInv (stepSentence C tok st s) := by
  obtain ⟨h1, h2⟩ := h
  unfold stepSentence
  dsimp only
  split_ifs with hA hB hC
  · exact ⟨by simp [h1], idxInv_append ⟨h1, h2⟩ _⟩
  · exact ⟨by simp [h1], idxInv_append ⟨h1, h2⟩ _⟩
  · exact ⟨h1, h2⟩
  · exact ⟨h1, h2⟩

theorem idxInv_stepParagraph (C : DocumentChunker) (tok : String → ℕ)
    {st : ChunkerState} (p : String) (h : IdxInv st) :
    IdxInv (stepParagraph C tok st p) := by
  unfold stepParagraph
  dsimp only
  split_ifs with h1 h2 h3 h4 h5 h6
  · exact h
  · exact foldl_preserve (fun s a hs => idxInv_stepSentence C tok a hs) _ _ h
  · exact ⟨by simp [h.1], idxInv_append h _⟩
  · exact ⟨by simp [h.1], idxInv_append h _⟩
  · exact ⟨by simp [h.1], idxInv_append h _⟩
  · exact h
  · exact h

theorem reindex_map_fst (l : List ChunkData) :
    ((l.enum.map (fun p => { p.2 with chunk_index := p.1 })).map
        (fun c => c.chunk_index)) =
      List.range (l.enum.map (fun p => { p.2 with chunk_index := p.1 })).length := by
  rw [List.map_map]
  have h : ((fun c : ChunkData => c.chunk_index) ∘
      (fun p : ℕ × ChunkData => { p.2 with chunk_index := p.1 })) = Prod.fst := rfl
  rw [h]
  simp [List.enum, List.enumFrom_map_fst, List.range_eq_range']

/-! ### Claim theorems -/

instance decRelClaimOrder :
    DecidableRel (fun a b : ℤ × ℚ => b.2 < a.2 ∨ (a.2 = b.2 ∧ a.1 ≤ b.1)) :=
  fun a b => inferInstanceAs (Decidable (b.2 < a.2 ∨ (a.2 = b.2 ∧ a.1 ≤ b.1)))

/-! ### Fused-score dictionary keys (claim C1) -/

/-- A key present after a dict update was either the updated key or was
already present. -/
theorem mem_keys_dictAdd {d : List (ℤ × ℚ)} {k a : ℤ} {v : ℚ}
    (h : a ∈ (dictAdd d k v).map Prod.fst) : a = k ∨ a ∈ d.map Prod.fst := by
  induction d with
  | nil => simpa [dictAdd] using h
  | cons x rest ih =>
      obtain ⟨b, c⟩ := x
      by_cases hb : b = k
      · simp only [dictAdd, if_pos hb, List.map_cons, List.mem_cons] at h
        exact Or.inr (by simpa using h)
      · simp only [dictAdd, if_neg hb, List.map_cons, List.mem_cons] at h
        rcases h with h | h
        · exact Or.inr (by simp [h])
        · rcases ih h with h' | h'
          · exact Or.inl h'
          · exact Or.inr (by simp [h'])

/-- Keys after the vector loop of `rrf_scores` come from the accumulator or
from the enumerated vector results. -/
theorem keys_vector_fold (w : ℚ) :
    ∀ (L : List (ℕ × (ℤ × ℚ))) (d : List (ℤ × ℚ)) (a : ℤ),
      a ∈ (L.foldl (fun d p => dictAdd d p.2.1 (w / (60 + (p.1 : ℚ) + 1))) d).map
          Prod.fst →
      a ∈ d.map Prod.fst ∨ a ∈ L.map (fun p => p.2.1)
  | [], _, _, h => Or.inl h
  | x :: L, d, a, h => by
      rcases keys_vector_fold w L _ a h with h' | h'
      · rcases mem_keys_dictAdd h' with h'' | h''
        · exact Or.inr (by simp [h''])
        · exact Or.inl h''
      · exact Or.inr (by simp [h'])

/-- Keys after the keyword loop of `rrf_scores` come from the accumulator
or are vector-result chunk ids: the loop's membership gate admits nothing
else. -/
theorem keys_keyword_fold (w : ℚ) (V : List (ℤ × ℚ)) :
    ∀ (L : List (ℕ × (ℤ × ℚ))) (d : List (ℤ × ℚ)) (a : ℤ),
      a ∈ (L.foldl
          (fun d p =>
            if p.2.1 ∈ V.map Prod.fst then
              dictAdd d p.2.1 ((1 - w) / (60 + (p.1 : ℚ) + 1))
            else d) d).map Prod.fst →
      a ∈ d.map Prod.fst ∨ a ∈ V.map Prod.fst
  | [], _, _, h => Or.inl h
  | x :: L, d, a, h => by
      rcases keys_keyword_fold w V L _ a h with h' | h'
      · by_cases hx : x.2.1 ∈ V.map Prod.fst
        · simp only [if_pos hx] at h'
          rcases mem_keys_dictAdd h' with h'' | h''
          · exact Or.inr (h'' ▸ hx)
          · exact Or.inl h''
        · simpa [if_neg hx] using Or.inl h'
      · exact Or.inr h'

/-- Claim C6: for every input, the `chunk_index` values produced by
`chunk_text`, and by `chunk_markdown` after its reassembly/reindexing
pass, are exactly `0, …, N-1` in list order with no gaps. -/
theorem c6_chunk_indices_dense (C : DocumentChunker) (tok : String → ℕ)
    (input : String) :
    (chunk_text C tok input).map (fun c => c.chunk_index)
      = List.range (chunk_text C tok input).length ∧
    (chunk_markdown C tok input).map (fun c => c.chunk_index)
      = List.range (chunk_markdown C tok input).length := by
  constructor
  · unfold chunk_text
    dsimp only
    split_ifs with h1 h2
    · simp
    · have hst : IdxInv ((splitParas (pyStrip input)).foldl
          (stepParagraph C tok) ⟨[], [], 0, 0⟩) :=
        foldl_preserve (fun s a hs => idxInv_stepParagraph C tok a hs) _ _
          ⟨rfl, rfl⟩
      exact idxInv_append hst _
    · have hst : IdxInv ((splitParas (pyStrip input)).foldl
          (stepParagraph C tok) ⟨[], [], 0, 0⟩) :=
        foldl_preserve (fun s a hs => idxInv_stepParagraph C tok a hs) _ _
          ⟨rfl, rfl⟩
      exact hst.2
  · unfold chunk_markdown
    dsimp only
    exact reindex_map_fst _

/-- Claim C1: the BM25 loop of `hybrid_search` only ever adds to chunk ids
already scored by the vector loop, so every chunk id in the hybrid result
occurs in the vector search result `V` (which the code obtains with limit
`2 · top_k`), for every store, keyword result list, weight and `top_k`. -/
theorem c1_hybrid_subset_vector (store : ℤ → Bool) (V K : List (ℤ × ℚ))
    (w : ℚ) (t : ℕ) (a : ℤ)
    (h : a ∈ (hybrid_search store V K w t).map Prod.fst) :
    a ∈ V.map Prod.fst := by
  simp only [hybrid_search, List.mem_map] at h
  obtain ⟨p, hp, rfl⟩ := h
  have hp1 : p ∈ pySortDescBySnd (rrf_scores w V K) :=
    List.mem_of_mem_take (List.mem_of_mem_filter hp)
  have hp2 : p ∈ rrf_scores w V K :=
    (List.perm_insertionSort (fun a b : ℤ × ℚ => b.2 ≤ a.2)
      (rrf_scores w V K)).mem_iff.mp hp1
  have hk : p.1 ∈ (rrf_scores w V K).map Prod.fst := List.mem_map_of_mem _ hp2
  unfold rrf_scores at hk
  rcases keys_keyword_fold w V K.enum _ p.1 hk with h' | h'
  · rcases keys_vector_fold w V.enum [] p.1 h' with h'' | h''
    · simp at h''
    · have hVK : V.enum.map (fun p => p.2.1) = V.map Prod.fst := by
        have h3 : (V.enum.map Prod.snd).map Prod.fst = V.map Prod.fst := by
          simp [List.enum]
        rw [← h3, List.map_map]
        rfl
      rwa [hVK] at h''
  · exact h'

/-- Witness for C1: chunk id 1 is in the concrete hybrid result and indeed
in the vector list. -/
theorem c1_hybrid_subset_vector_witness :
    (1 : ℤ) ∈ (hybrid_search (fun _ => true) [((1 : ℤ), (1 : ℚ))] []
        (7/10) 10).map Prod.fst ∧
    (1 : ℤ) ∈ ([((1 : ℤ), (1 : ℚ))].map Prod.fst) := by
  have hm : (1 : ℤ) ∈ (hybrid_search (fun _ => true) [((1 : ℤ), (1 : ℚ))] []
      (7/10) 10).map Prod.fst := by
    norm_num [hybrid_search, rrf_scores, dictAdd, pySortDescBySnd,
      List.insertionSort, List.orderedInsert, List.enum, List.enumFrom]
  exact ⟨hm, c1_hybrid_subset_vector (fun _ => true) [((1 : ℤ), (1 : ℚ))] []
    (7/10) 10 1 hm⟩

/-- Claim C7, against the code: an input consisting of one single sentence
whose token count (4, with the character-count tokenizer) exceeds
`chunk_size = 2` makes `chunk_text` return no chunk at all — the sentence
is silently dropped by the `if current_chunk:` guard, and no `oversize`
flag exists anywhere in the chunker. -/
theorem c7_oversize_sentence_dropped :
    chunk_text ⟨2, 200⟩ (fun s => s.length) "aaaa" = [] ∧
    2 < (fun s : String => s.length) "aaaa" :=
  ⟨rfl, by decide⟩

/-- Claim C8, against the code: on input `"a\n\nb"` (character-count
tokenizer, `chunk_size = 1`) the second chunk has text `"a b"` and
`start_char = 1`, but the post-clean text at offset 1 reads `"\n\nb"`, not
`"a b"` — `start_char` is the length of the space-join of the previously
emitted chunks, not an offset into the post-clean input. -/
theorem c8_start_char_not_an_offset :
    (chunk_text ⟨1, 200⟩ (fun s => s.length) "a\n\nb").map (fun c => c.text)
        = ["a", "a b"] ∧
    (chunk_text ⟨1, 200⟩ (fun s => s.length) "a\n\nb").map (fun c => c.start_char)
        = [0, 1] ∧
    ((pyStrip "a\n\nb").drop 1).take 3 ≠ "a b" := by
  refine ⟨rfl, rfl, ?_⟩
  decide

/-- Claim C2, against the code: a storage failure at the final
status-update commit (commit 6), after the chunk rows were committed,
leaves the job `failed` with one chunk still persisted for the document —
the `except` handler of `process_document` deletes nothing. -/
theorem c2_failed_job_keeps_persisted_chunks :
    (process_document (fun n => decide (n = 6)) (.ok "hello") ⟨800, 200⟩
        (fun s => s.length) (fun _ => [0]) 1
        ⟨⟨"pending", 0, none⟩, [], []⟩).job.status = "failed" ∧
    (process_document (fun n => decide (n = 6)) (.ok "hello") ⟨800, 200⟩
        (fun s => s.length) (fun _ => [0]) 1
        ⟨⟨"pending", 0, none⟩, [], []⟩).chunks.length = 1 := by
  exact ⟨rfl, rfl⟩

/-- Claim C3, against the code: a URL ingestion whose parsed text `"T"`
duplicates an existing document (the stored checksum below is the SHA-256
of `"T"`) still creates a new `Document` row up front — with `checksum`
left NULL — and the background job then runs to `completed`:
`ingest_url` computes no checksum and `process_document` performs no
duplicate lookup on the URL path. -/
theorem c3_url_ingestion_has_no_dedup :
    ingest_url [1] "job-1" ⟨1, some "http://example.com", none, "t"⟩
        [⟨1, 1, "old", "text", none,
          some "e632b7095b0bf32c260fa4c539e9fd7b852d0de454e9be26f24d0d6f91d069d3"⟩] [] =
      .ok ([⟨1, 1, "old", "text", none,
             some "e632b7095b0bf32c260fa4c539e9fd7b852d0de454e9be26f24d0d6f91d069d3"⟩,
            ⟨2, 1, "t", "url", some "http://example.com", none⟩],
           [⟨"job-1", 1, 2, "pending", 0⟩], 2) ∧
    (process_document (fun _ => false) (.ok "T") ⟨800, 200⟩ (fun s => s.length)
        (fun _ => [0]) 2 ⟨⟨"pending", 0, none⟩, [], []⟩).job.status
      = "completed" := by
  exact ⟨rfl, rfl⟩

/-- Claim C9, against the code: with `confidence = 1/100 < 0.05` the
handler returns the fixed insufficient-information answer with empty
citations but leaves the `Query` table untouched — no row is written, so
feedback on the query is impossible. -/
theorem c9_low_confidence_writes_no_query_row :
    ask_question 1 "q" (1/100) ⟨"ans", [1], 5, "m"⟩ [(4, 1)]
        [⟨1, "old", "a", [], 1, "m", 1⟩] [] =
      (⟨"I cannot find enough relevant information to answer this question.",
        [], 1/100⟩, [⟨1, "old", "a", [], 1, "m", 1⟩], []) := by
  rw [ask_question, if_pos (by norm_num : (1 : ℚ)/100 < 1/20)]

/-- `np.vstack` of the batches of an empty text list fails for every batch
size: with `batch_size = 0` Python's `range` raises, otherwise there are no
batches to stack. -/
theorem embed_batch_nil_err (f : String → List ℚ) (bs : ℕ) :
    (embed_batch f bs []).toOption = none := by
  cases bs <;> rfl

/-- Claim C10: `embed_batch` on an empty text list never returns a value
(`np.vstack([])` raises), and consequently a job whose parsed text strips
to empty — so that `chunk_text` returns zero chunks — always ends
`failed`, never `completed`, whatever the storage layer does. -/
theorem c10_empty_text_job_fails :
    (∀ (f : String → List ℚ) (batch_size : ℕ),
      (embed_batch f batch_size []).toOption = none) ∧
    (∀ (cf : ℕ → Bool) (C : DocumentChunker) (tok : String → ℕ)
        (f : String → List ℚ) (document_id : ℕ) (j : IngestJobRow)
        (w : String), pyStrip w = "" →
      chunk_text C tok w = [] ∧
      (process_document cf (.ok w) C tok f document_id
          ⟨j, [], []⟩).job.status = "failed") := by
  refine ⟨embed_batch_nil_err, ?_⟩
  intro cf C tok f document_id j w h
  have hchunk : chunk_text C tok w = [] := by simp [chunk_text, h]
  have hemb : embed_batch f 32 ([] : List String)
      = Except.error "need at least one array to concatenate" := rfl
  refine ⟨hchunk, ?_⟩
  unfold process_document
  cases hc1 : cf 1 <;> cases hc2 : cf 2 <;> cases hc3 : cf 3 <;>
    simp [runCommit, hc1, hc2, hc3, liftErr, failJob, commitDb, Except.bind,
      bind, hchunk, hemb]

/-- Witness for C10 at the whitespace-only input `"  "`. -/
theorem c10_empty_text_job_fails_witness :
    pyStrip "  " = "" ∧
    chunk_text ⟨800, 200⟩ (fun s => s.length) "  " = [] ∧
    (process_document (fun _ => false) (.ok "  ") ⟨800, 200⟩
        (fun s => s.length) (fun _ => [0]) 1
        ⟨⟨"pending", 0, none⟩, [], []⟩).job.status = "failed" :=
  ⟨rfl,
   (c10_empty_text_job_fails.2 (fun _ => false) ⟨800, 200⟩ (fun s => s.length)
     (fun _ => [0]) 1 ⟨"pending", 0, none⟩ "  " rfl).1,
   (c10_empty_text_job_fails.2 (fun _ => false) ⟨800, 200⟩ (fun s => s.length)
     (fun _ => [0]) 1 ⟨"pending", 0, none⟩ "  " rfl).2⟩

/-! ### Stable-sort and dict-key lemmas for the fused ranking (claim C4) -/

/-- First-occurrence de-duplication, the key order of a Python dict built
by repeated insertion. -/
def pyDedup (l : List ℤ) : List ℤ :=
  l.foldl (fun acc k => if k ∈ acc then acc else acc ++ [k]) []

theorem filter_orderedInsert_snd (q : ℚ) (x : ℤ × ℚ) :
    ∀ (m : List (ℤ × ℚ)),
      (m.orderedInsert (fun a b => b.2 ≤ a.2) x).filter (fun p => p.2 = q) =
        if x.2 = q then x :: m.filter (fun p => p.2 = q)
        else m.filter (fun p => p.2 = q)
  | [] => by
      by_cases h : x.2 = q <;> simp [List.orderedInsert, List.filter, h]
  | y :: ys => by
      rw [List.orderedInsert]
      by_cases h1 : y.2 ≤ x.2
      · rw [if_pos h1]
        by_cases h2 : x.2 = q <;> simp [List.filter_cons, h2]
      · rw [if_neg h1]
        have hxy : x.2 < y.2 := lt_of_not_le h1
        by_cases h2 : x.2 = q <;> by_cases h3 : y.2 = q
        · exact absurd (h3.trans h2.symm) (ne_of_gt hxy)
        · simp [List.filter_cons, h2, h3, filter_orderedInsert_snd q x ys]
        · simp [List.filter_cons, h2, h3, filter_orderedInsert_snd q x ys]
        · simp [List.filter_cons, h2, h3, filter_orderedInsert_snd q x ys]

theorem filter_pySortDesc_stable (q : ℚ) :
    ∀ (l : List (ℤ × ℚ)),
      (pySortDescBySnd l).filter (fun p => p.2 = q) = l.filter (fun p => p.2 = q)
  | [] => rfl
  | x :: xs => by
      have ih := filter_pySortDesc_stable q xs
      rw [pySortDescBySnd] at ih
      rw [pySortDescBySnd, List.insertionSort, filter_orderedInsert_snd]
      by_cases h : x.2 = q <;> simp [List.filter_cons, h, ih]

theorem sorted_pySortDesc (l : List (ℤ × ℚ)) :
    (pySortDescBySnd l).Pairwise (fun a b => b.2 ≤ a.2) := by
  haveI : IsTotal (ℤ × ℚ) (fun a b => b.2 ≤ a.2) := ⟨fun a b => le_total b.2 a.2⟩
  haveI : IsTrans (ℤ × ℚ) (fun a b => b.2 ≤ a.2) :=
    ⟨fun _ _ _ h g => le_trans g h⟩
  exact List.sorted_insertionSort _ l

theorem keys_dictAdd_eq (k : ℤ) (v : ℚ) :
    ∀ (d : List (ℤ × ℚ)),
      (dictAdd d k v).map Prod.fst =
        if k ∈ d.map Prod.fst then d.map Prod.fst else d.map Prod.fst ++ [k]
  | [] => by simp [dictAdd]
  | (b, c) :: rest => by
      by_cases hb : b = k
      · simp [dictAdd, hb]
      · simp only [dictAdd, if_neg hb, List.map_cons, keys_dictAdd_eq k v rest]
        by_cases hk : k ∈ rest.map Prod.fst <;>
          simp [hk, List.mem_cons, Ne.symm hb]

theorem keys_vector_fold_eq (w : ℚ) :
    ∀ (L : List (ℕ × (ℤ × ℚ))) (d : List (ℤ × ℚ)),
      (L.foldl (fun d p => dictAdd d p.2.1 (w / (60 + (p.1 : ℚ) + 1))) d).map
          Prod.fst =
        (L.map (fun p => p.2.1)).foldl
          (fun acc k => if k ∈ acc then acc else acc ++ [k]) (d.map Prod.fst)
  | [], _ => rfl
  | x :: L, d => by
      rw [List.foldl_cons, keys_vector_fold_eq w L, List.map_cons,
        List.foldl_cons, keys_dictAdd_eq]

theorem mem_dedup_foldl :
    ∀ (l : List ℤ) (acc : List ℤ) (x : ℤ),
      x ∈ l.foldl (fun acc k => if k ∈ acc then acc else acc ++ [k]) acc ↔
        x ∈ acc ∨ x ∈ l
  | [], acc, x => by simp
  | a :: l, acc, x => by
      rw [List.foldl_cons, mem_dedup_foldl l]
      by_cases ha : a ∈ acc
      · simp only [if_pos ha, List.mem_cons]
        constructor
        · intro h
          rcases h with h | h
          · exact Or.inl h
          · exact Or.inr (Or.inr h)
        · intro h
          rcases h with h | h | h
          · exact Or.inl h
          · exact Or.inl (h ▸ ha)
          · exact Or.inr h
      · simp only [if_neg ha, List.mem_append, List.mem_singleton, List.mem_cons]
        tauto

theorem keys_keyword_fold_eq (w : ℚ) (V : List (ℤ × ℚ)) :
    ∀ (L : List (ℕ × (ℤ × ℚ))) (d : List (ℤ × ℚ)),
      (∀ a ∈ V.map Prod.fst, a ∈ d.map Prod.fst) →
      (L.foldl
          (fun d p =>
            if p.2.1 ∈ V.map Prod.fst then
              dictAdd d p.2.1 ((1 - w) / (60 + (p.1 : ℚ) + 1))
            else d) d).map Prod.fst = d.map Prod.fst
  | [], _, _ => rfl
  | x :: L, d, hsub => by
      rw [List.foldl_cons]
      by_cases hx : x.2.1 ∈ V.map Prod.fst
      · rw [if_pos hx]
        have hk : (dictAdd d x.2.1 ((1 - w) / (60 + (x.1 : ℚ) + 1))).map Prod.fst
            = d.map Prod.fst := by
          rw [keys_dictAdd_eq, if_pos (hsub _ hx)]
        rw [keys_keyword_fold_eq w V L _ (fun a ha => hk ▸ hsub a ha), hk]
      · rw [if_neg hx]
        exact keys_keyword_fold_eq w V L d hsub

theorem enum_ids (V : List (ℤ × ℚ)) :
    V.enum.map (fun p => p.2.1) = V.map Prod.fst := by
  have h3 : (V.enum.map Prod.snd).map Prod.fst = V.map Prod.fst := by
    simp [List.enum]
  rw [← h3, List.map_map]
  rfl

theorem keys_rrf_scores (w : ℚ) (V K : List (ℤ × ℚ)) :
    (rrf_scores w V K).map Prod.fst = pyDedup (V.map Prod.fst) := by
  unfold rrf_scores
  dsimp only
  have hvec : ((V.enum.foldl
      (fun d p => dictAdd d p.2.1 (w / (60 + (p.1 : ℚ) + 1))) [])).map Prod.fst
      = pyDedup (V.map Prod.fst) := by
    rw [keys_vector_fold_eq, enum_ids]
    rfl
  rw [keys_keyword_fold_eq w V K.enum _ ?_, hvec]
  intro a ha
  rw [hvec, pyDedup]
  exact (mem_dedup_foldl _ _ _).mpr (Or.inr ha)


/-- Claim C4, amended: when the store hydrates every chunk id,
`hybrid_search` returns exactly the first `top_k` entries of the stable
descending sort of the fused-score dict; the result is sorted by
descending fused score, ties between equal fused scores stay in the
dict's insertion order (the order ids first appear in the vector result
list, whose keys are exactly the first occurrences of the vector ids). -/
theorem c4_hybrid_sorted_amended (store : ℤ → Bool) (V K : List (ℤ × ℚ))
    (w : ℚ) (t : ℕ) (hstore : ∀ id, store id = true) :
    hybrid_search store V K w t = (pySortDescBySnd (rrf_scores w V K)).take t ∧
    (hybrid_search store V K w t).Pairwise (fun a b => b.2 ≤ a.2) ∧
    (∀ q : ℚ, (pySortDescBySnd (rrf_scores w V K)).filter (fun p => p.2 = q)
      = (rrf_scores w V K).filter (fun p => p.2 = q)) ∧
    (rrf_scores w V K).map Prod.fst = pyDedup (V.map Prod.fst) := by
  have h1 : hybrid_search store V K w t
      = (pySortDescBySnd (rrf_scores w V K)).take t := by
    unfold hybrid_search
    dsimp only
    exact List.filter_eq_self.mpr (fun a _ => hstore a.1)
  refine ⟨h1, ?_, fun q => filter_pySortDesc_stable q _, keys_rrf_scores w V K⟩
  rw [h1]
  exact List.Pairwise.sublist (List.take_sublist _ _) (sorted_pySortDesc _)

/-- Witness for the amended C4 with an all-hydrating store. -/
theorem c4_hybrid_sorted_amended_witness :
    (∀ id : ℤ, (fun _ : ℤ => true) id = true) ∧
    hybrid_search (fun _ => true) [((1 : ℤ), (1 : ℚ))] [] (7/10) 10 =
      (pySortDescBySnd (rrf_scores (7/10) [((1 : ℤ), (1 : ℚ))] [])).take 10 :=
  ⟨fun _ => rfl,
   (c4_hybrid_sorted_amended (fun _ => true) [((1 : ℤ), (1 : ℚ))] [] (7/10) 10
     (fun _ => rfl)).1⟩

/-! ### Keyword-search top-k properties (claim C5)

The amended C5 is proved relationally: for EVERY argsort outcome numpy is
allowed to return (`np_argsort_spec`), the selection tail of
`keyword_search` yields only positive scores, sorted descending, in the
exact quantity `min top_k (number of positive scores)`, and no unselected
entry outranks a selected one. No tie order between equal scores is
asserted — numpy's default quicksort guarantees none. -/

/-- In a descending-sorted list, taking `k` then keeping the positive
scores keeps exactly `min k (number of positive scores)` entries: the
positives form a prefix. -/
theorem length_take_filter_pos :
    ∀ (k : ℕ) (m : List (ℕ × ℚ)), m.Pairwise (fun a b => b.2 ≤ a.2) →
      ((m.take k).filter (fun p => 0 < p.2)).length =
        min k ((m.filter (fun p => 0 < p.2)).length)
  | _, [], _ => by simp
  | 0, _ :: _, _ => by simp
  | k + 1, x :: xs, h => by
      rw [List.take_succ_cons]
      by_cases hx : 0 < x.2
      · rw [List.filter_cons_of_pos (by simpa using hx),
            List.filter_cons_of_pos (by simpa using hx)]
        simp only [List.length_cons]
        rw [length_take_filter_pos k xs h.of_cons]
        omega
      · have hxs : ∀ y ∈ xs, ¬ (0 < y.2) := fun y hy hpos =>
          hx (lt_of_lt_of_le hpos (List.rel_of_pairwise_cons h hy))
        have h1 : (xs.take k).filter (fun p => (0 : ℚ) < p.2) = [] :=
          List.filter_eq_nil_iff.mpr
            (fun a ha => by simpa using hxs a (List.mem_of_mem_take ha))
        have h2 : xs.filter (fun p => (0 : ℚ) < p.2) = [] :=
          List.filter_eq_nil_iff.mpr (fun a ha => by simpa using hxs a ha)
        rw [List.filter_cons_of_neg (by simpa using hx),
            List.filter_cons_of_neg (by simpa using hx), h1, h2]
        simp

/-- Claim C5, amended: for `top_k ≥ 1` and any argsort outcome admitted by
numpy's contract, `keyword_search`'s selection returns only
positive-score entries, sorted by descending BM25 score, of length exactly
`min top_k (number of positive scores)`, and every entry it leaves out
scores no higher than every entry it returns. The order of equal scores is
left unspecified, as the default `np.argsort` quicksort guarantees none. -/
theorem c5_keyword_search_amended (chunk_ids : List ℤ) (scores : List ℚ)
    (top_k : ℕ) (ord : List (ℕ × ℚ))
    (hord : np_argsort_spec scores.enum ord) (htop : 1 ≤ top_k) :
    (∀ p ∈ keyword_search_post chunk_ids top_k ord, 0 < p.2) ∧
    (keyword_search_post chunk_ids top_k ord).Pairwise
      (fun a b => b.2 ≤ a.2) ∧
    (keyword_search_post chunk_ids top_k ord).length
      = min top_k ((scores.enum.filter (fun p => 0 < p.2)).length) ∧
    (∀ p ∈ ord.reverse.take top_k, ∀ q ∈ scores.enum,
      q ∉ ord.reverse.take top_k → q.2 ≤ p.2) := by
  obtain ⟨hperm, hsort⟩ := hord
  have hk0 : ¬ top_k = 0 := by omega
  have hrevsort : ord.reverse.Pairwise (fun a b : ℕ × ℚ => b.2 ≤ a.2) :=
    List.pairwise_reverse.mpr hsort
  have hsel : (ord.reverse.take top_k).Pairwise
      (fun a b : ℕ × ℚ => b.2 ≤ a.2) :=
    List.Pairwise.sublist (List.take_sublist _ _) hrevsort
  refine ⟨?_, ?_, ?_, ?_⟩
  · intro p hp
    simp only [keyword_search_post, if_neg hk0, List.mem_map] at hp
    obtain ⟨q, hq, rfl⟩ := hp
    simpa using List.of_mem_filter hq
  · simp only [keyword_search_post, if_neg hk0]
    exact List.pairwise_map.mpr
      (List.Pairwise.sublist (List.filter_sublist _) hsel)
  · simp only [keyword_search_post, if_neg hk0, List.length_map]
    rw [length_take_filter_pos top_k ord.reverse hrevsort,
      ((ord.reverse_perm.trans hperm).filter _).length_eq]
  · intro p hp q hq hqn
    have hq1 : q ∈ ord.reverse := List.mem_reverse.mpr (hperm.mem_iff.mpr hq)
    rw [← List.take_append_drop top_k ord.reverse] at hq1
    rcases List.mem_append.mp hq1 with h | h
    · exact absurd h hqn
    · have hpa := hrevsort
      rw [← List.take_append_drop top_k ord.reverse] at hpa
      exact (List.pairwise_append.mp hpa).2.2 p hp q h

/-- Witness for the amended C5 at scores `[7, 3]`, `top_k = 2`, with the
insertion-sort argsort outcome. -/
theorem c5_keyword_search_amended_witness :
    np_argsort_spec (List.enum [7, 3]) (argsortAsc (List.enum [7, 3])) ∧
    1 ≤ 2 ∧
    (keyword_search_post [1, 2] 2 (argsortAsc (List.enum [7, 3]))).length
      = min 2 (((List.enum [7, 3]).filter (fun p => 0 < p.2)).length) :=
  ⟨argsortAsc_satisfies_spec _, by decide,
   (c5_keyword_search_amended [1, 2] [7, 3] 2 (argsortAsc (List.enum [7, 3]))
     (argsortAsc_satisfies_spec _) (by decide)).2.2.1⟩

/-- Claim C4, counterexample: with `vector_weight = 1/2`, vector results
`[(9, ·), (3, ·)]` and keyword results `[(3, ·), (9, ·)]`, chunks 9 and 3
tie at fused score `123/7564`, yet `hybrid_search` returns 9 before 3
(the stable sort keeps dict insertion order, i.e. vector-rank order) — not
ascending chunk id. -/
theorem c4_tie_break_counterexample :
    hybrid_search (fun _ => true) [(9, (9 : ℚ)/10), (3, 8/10)]
        [(3, 2), (9, 1)] (1/2) 2 = [(9, 123/7564), (3, 123/7564)] ∧
    ¬ (hybrid_search (fun _ => true) [(9, (9 : ℚ)/10), (3, 8/10)]
        [(3, 2), (9, 1)] (1/2) 2).Pairwise
        (fun a b => b.2 < a.2 ∨ (a.2 = b.2 ∧ a.1 ≤ b.1)) := by
  have h : hybrid_search (fun _ => true) [(9, (9 : ℚ)/10), (3, 8/10)]
      [(3, 2), (9, 1)] (1/2) 2 = [(9, 123/7564), (3, 123/7564)] := by
    norm_num [hybrid_search, rrf_scores, dictAdd, pySortDescBySnd,
      List.insertionSort, List.orderedInsert, List.enum, List.enumFrom]
  refine ⟨h, ?_⟩
  rw [h]
  norm_num [List.pairwise_cons]

/-- Claim C5, counterexample: two chunks with identical positive BM25
score. `keyword_search` returns them in descending index order (the
reversed stable argsort), while the claim's ordering — ties by ascending
chunk id — demands the opposite. -/
theorem c5_tie_break_counterexample :
    keyword_search [1, 2] [5, 5] 2 = [(2, 5), (1, 5)] ∧
    keyword_search_spec [1, 2] [5, 5] 2 = [(1, 5), (2, 5)] ∧
    keyword_search [1, 2] [5, 5] 2 ≠ keyword_search_spec [1, 2] [5, 5] 2 := by
  refine ⟨rfl, rfl, ?_⟩
  decide

end Docusense
